import Mathlib

/-!
Shallow embedding of the real-time subscription and update-broadcast engine
of the Finance-app repository: the websocket module (connection registry,
subscribe/unsubscribe/disconnect handlers, update scheduler, broadcast
fan-out, forced updates, watchlist subscription) together with the batch
quote fetcher `getMultipleStockPrices` of the stock API module.

JS `Map` objects are modelled as insertion-ordered association lists and JS
`Set` objects as duplicate-free insertion-ordered lists, with the exact
operational behaviour of `Map.get/set/delete/has/size` and
`Set.add/delete/size` (sizes are list lengths; all sets and maps in the
engine are built from empty ones through these operations, so lengths agree
with JS sizes).  Network and database effects (axios calls, mongoose
upserts, the watchlist lookup) are modelled as explicit oracle parameters;
console logging and message timestamps are dropped, as no claim mentions
them.  Socket identifiers are modelled as `Nat` (socket.io guarantees a
fresh identifier per connection, which the reachability relation reflects),
ticker symbols as `String`.
-/

namespace FinanceApp

set_option maxRecDepth 200000

/-- `String.prototype.toUpperCase`, character by character (JS and Lean
agree on the ASCII range used by ticker symbols). -/
def toUpperStr (s : String) : String := ⟨s.data.map Char.toUpper⟩

/-- `String.prototype.trim`: strip whitespace from both ends. -/
def trimStr (s : String) : String :=
  ⟨((s.data.dropWhile Char.isWhitespace).reverse.dropWhile Char.isWhitespace).reverse⟩

/-- Canonical form of a ticker symbol, `symbol.toUpperCase().trim()`
(lines 80 and 139 of the websocket module). -/
def cleanSym (s : String) : String := trimStr (toUpperStr s)

/-- JS `Map.prototype.get` on an insertion-ordered association list. -/
def mget {κ ν : Type} [DecidableEq κ] : List (κ × ν) → κ → Option ν
  | [], _ => none
  | p :: m, k => if p.1 = k then some p.2 else mget m k

/-- JS `Map.prototype.set`: replace the value of an existing key in place,
append a fresh key at the end. -/
def mset {κ ν : Type} [DecidableEq κ] : List (κ × ν) → κ → ν → List (κ × ν)
  | [], k, v => [(k, v)]
  | p :: m, k, v => if p.1 = k then (k, v) :: m else p :: mset m k v

/-- JS `Map.prototype.delete` (maps built via `mset` never hold a key
twice, so removing every occurrence coincides with JS behaviour). -/
def mdel {κ ν : Type} [DecidableEq κ] : List (κ × ν) → κ → List (κ × ν)
  | [], _ => []
  | p :: m, k => if p.1 = k then mdel m k else p :: mdel m k

/-- JS `Set.prototype.add`. -/
def setAdd {α : Type} [DecidableEq α] (l : List α) (x : α) : List α :=
  if x ∈ l then l else l ++ [x]

/-- JS `Set.prototype.delete`. -/
def setDel {α : Type} [DecidableEq α] (l : List α) (x : α) : List α := l.erase x

/-- One price snapshot as produced by `formatStockData`.  The websocket
layer only inspects `stock.symbol`; the remaining payload fields are
represented by `price`. -/
structure StockQuote where
  symbol : String
  price : Int
deriving DecidableEq

/-- One entry of the `connections` map: the per-connection subscription set,
the optional authenticated user id, and the transport's `socket.connected`
flag consulted by the fan-out loops. -/
structure Conn where
  subs : List String
  userId : Option String
  connected : Bool
deriving DecidableEq

/-- The module-level mutable state of the websocket module: the
`connections` map (socket id to connection record), the `subscriptions` map
(canonical symbol to set of socket ids), and whether `updateInterval`
currently holds a live timer (`null` is modelled as `false`). -/
structure ServerState where
  connections : List (Nat × Conn)
  subscriptions : List (String × List Nat)
  updateInterval : Bool
deriving DecidableEq

/-- The state at process start: both maps empty, no timer. -/
def initState : ServerState := ⟨[], [], false⟩

/-- Outbound socket messages the embedded handlers can emit.
`subscribeMessage` is the message named `subscribe` that the
`subscribe_watchlist` handler sends *to the client* via `socket.emit`;
`stockUpdateForced` is the `stock_update` variant carrying `forced: true`. -/
inductive Msg where
  | subscribed (symbols : List String) (errors : List (String × String))
  | subscriptionError (error : String)
  | unsubscribed (symbols : List String)
  | unsubscriptionError (error : String)
  | watchlistSubscribed (symbols : List String) (message : String)
  | subscribeMessage (symbols : List String)
  | stockUpdate (symbol : String) (data : StockQuote)
  | stockUpdateForced (symbol : String) (data : StockQuote)
  | stockError (symbol : String) (error : String)
deriving DecidableEq

/-- The set of socket ids the index holds for a symbol; `[]` when the symbol
is not a key (the `undefined` case of `subscriptions.get`). -/
def idxGet (idx : List (String × List Nat)) (s : String) : List Nat :=
  (mget idx s).getD []

/-- The index mutation of the subscribe loop:
`if (!subscriptions.has(s)) subscriptions.set(s, new Set());`
`subscriptions.get(s).add(clientId)`. -/
def indexAdd (idx : List (String × List Nat)) (s : String) (cid : Nat) :
    List (String × List Nat) :=
  mset idx s (setAdd (idxGet idx s) cid)

/-- The index mutation shared by the unsubscribe handler and the disconnect
handler: if the symbol is a key, delete the socket id from its set and
delete the key when the set becomes empty. -/
def indexRemove (idx : List (String × List Nat)) (s : String) (cid : Nat) :
    List (String × List Nat) :=
  match mget idx s with
  | none => idx
  | some l =>
    let l' := setDel l cid
    if l'.length = 0 then mdel idx s else mset idx s l'

/-- `MAX_SUBSCRIPTIONS_PER_CLIENT` of the websocket module. -/
def MAX_SUBSCRIPTIONS_PER_CLIENT : Nat := 50

/-- State threaded through the `symbols.forEach` loop of the subscribe
handler: the connection's subscription set, the global index, and the
`subscribedSymbols` / `errors` accumulators. -/
structure SubLoopRes where
  subs : List String
  index : List (String × List Nat)
  accepted : List String
  errs : List (String × String)
deriving DecidableEq

/-- The `symbols.forEach` loop of the subscribe handler: canonicalize, skip
empty symbols with an `Invalid symbol` error, otherwise add to the
connection's set and to the global index. -/
def subscribeLoop (cid : Nat) : List String → SubLoopRes → SubLoopRes
  | [], r => r
  | sym :: rest, r =>
    let clean := cleanSym sym
    if clean = "" then
      subscribeLoop cid rest { r with errs := r.errs ++ [(sym, "Invalid symbol")] }
    else
      subscribeLoop cid rest
        { subs := setAdd r.subs clean
          index := indexAdd r.index clean cid
          accepted := r.accepted ++ [clean]
          errs := r.errs }

/-- The `subscribe` event handler.  `payload = none` models a missing or
non-array `symbols` field.  Returns the new module state and the messages
emitted to the requesting socket (the asynchronous `initial_data` follow-up
of `sendInitialStockData` is an external effect and is not modelled).
After the loop, the handler starts the update interval when the index is
non-empty and no timer is live. -/
def handleSubscribe (st : ServerState) (cid : Nat) (payload : Option (List String)) :
    ServerState × List Msg :=
  match payload with
  | none => (st, [Msg.subscriptionError "Invalid symbols array"])
  | some symbols =>
    match mget st.connections cid with
    | none => (st, [Msg.subscriptionError "Connection not found"])
    | some conn =>
      if MAX_SUBSCRIPTIONS_PER_CLIENT < conn.subs.length + symbols.length then
        (st, [Msg.subscriptionError "Maximum 50 subscriptions allowed per client"])
      else
        let r := subscribeLoop cid symbols ⟨conn.subs, st.subscriptions, [], []⟩
        let active :=
          if 0 < r.index.length ∧ st.updateInterval = false then true
          else st.updateInterval
        ({ connections := mset st.connections cid { conn with subs := r.subs }
           subscriptions := r.index
           updateInterval := active },
         [Msg.subscribed r.accepted r.errs])

/-- State threaded through the `symbols.forEach` loop of the unsubscribe
handler. -/
structure UnsubLoopRes where
  subs : List String
  index : List (String × List Nat)
  unsubbed : List String
deriving DecidableEq

/-- The `symbols.forEach` loop of the unsubscribe handler: canonicalize
(no emptiness check here), delete from the connection's set, remove from
the index with pruning, record the symbol as unsubscribed. -/
def unsubscribeLoop (cid : Nat) : List String → UnsubLoopRes → UnsubLoopRes
  | [], r => r
  | sym :: rest, r =>
    let clean := cleanSym sym
    unsubscribeLoop cid rest
      { subs := setDel r.subs clean
        index := indexRemove r.index clean cid
        unsubbed := r.unsubbed ++ [clean] }

/-- The `unsubscribe` event handler.  A missing connection returns silently
with no emit; afterwards the handler stops the update interval when the
index became empty while a timer was live. -/
def handleUnsubscribe (st : ServerState) (cid : Nat) (payload : Option (List String)) :
    ServerState × List Msg :=
  match payload with
  | none => (st, [Msg.unsubscriptionError "Invalid symbols array"])
  | some symbols =>
    match mget st.connections cid with
    | none => (st, [])
    | some conn =>
      let r := unsubscribeLoop cid symbols ⟨conn.subs, st.subscriptions, []⟩
      let active :=
        if r.index.length = 0 ∧ st.updateInterval = true then false
        else st.updateInterval
      ({ connections := mset st.connections cid { conn with subs := r.subs }
         subscriptions := r.index
         updateInterval := active },
       [Msg.unsubscribed r.unsubbed])

/-- The `connection` event: register a fresh record with an empty
subscription set. -/
def handleConnect (st : ServerState) (cid : Nat) : ServerState :=
  { st with connections := mset st.connections cid ⟨[], none, true⟩ }

/-- The `disconnect` event handler: remove the socket id from the index
entry of every symbol the connection subscribed to (pruning emptied
entries), delete the connection record, and stop the update interval when
the index became empty while a timer was live. -/
def handleDisconnect (st : ServerState) (cid : Nat) : ServerState :=
  let index :=
    match mget st.connections cid with
    | some conn => conn.subs.foldl (fun idx s => indexRemove idx s cid) st.subscriptions
    | none => st.subscriptions
  let active :=
    if index.length = 0 ∧ st.updateInterval = true then false
    else st.updateInterval
  { connections := mdel st.connections cid
    subscriptions := index
    updateInterval := active }

/-- States reachable from process start by connection events and
subscribe/unsubscribe/disconnect messages.  A `connection` event always
carries a socket id that is not currently registered (socket.io issues a
fresh id per connection).  The `authenticate` and `ping` handlers touch
neither map nor the timer and are therefore omitted. -/
inductive Reachable : ServerState → Prop where
  | init : Reachable initState
  | connect {st : ServerState} {cid : Nat} :
      Reachable st → mget st.connections cid = none → Reachable (handleConnect st cid)
  | subscribe {st : ServerState} {cid : Nat} {payload : Option (List String)} :
      Reachable st → Reachable (handleSubscribe st cid payload).1
  | unsubscribe {st : ServerState} {cid : Nat} {payload : Option (List String)} :
      Reachable st → Reachable (handleUnsubscribe st cid payload).1
  | disconnect {st : ServerState} {cid : Nat} :
      Reachable st → Reachable (handleDisconnect st cid)

/-- The `batchSize` constant of `broadcastStockUpdates`. -/
def batchSize : Nat := 10

/-- Structural worker for `chunks`: each iteration takes one slice of at
most `batchSize` symbols and recurses on the rest; the fuel is an upper
bound on the number of iterations (every iteration consumes at least one
element, so `l.length` fuel always suffices). -/
def chunksGo {α : Type} : Nat → List α → List (List α)
  | _, [] => []
  | 0, _ :: _ => []
  | Nat.succ fuel, x :: rest =>
    (x :: rest).take batchSize :: chunksGo fuel ((x :: rest).drop batchSize)

/-- The slicing loop `for (let i = 0; i < symbols.length; i += batchSize)`
with `symbols.slice(i, i + batchSize)`. -/
def chunks {α : Type} (l : List α) : List (List α) := chunksGo l.length l

/-- The batch quote fetcher of the stock API module.  The `api` oracle
stands for the axios request against the upstream batch endpoint: it either
throws (network failure, missing response body) or yields the response
body, a lookup from uppercased symbol to the formatted quote of its `quote`
field (`none` models a symbol absent from the body).  The function
validates its input (empty array, more than 100 symbols; the non-array case
is excluded by typing), then builds the per-symbol `stocks` / `errors`
lists; any throw is rewrapped with the `Failed to fetch...` prefix. -/
def getMultipleStockPrices
    (api : List String → Except String (String → Option StockQuote))
    (symbols : List String) :
    Except String (List StockQuote × List (String × String)) :=
  if symbols.length = 0 then Except.error "Valid symbols array is required"
  else if 100 < symbols.length then Except.error "Maximum 100 symbols allowed per request"
  else
    match api symbols with
    | Except.error e => Except.error ("Failed to fetch multiple stock prices: " ++ e)
    | Except.ok data =>
      Except.ok (symbols.foldl
        (fun acc s =>
          match data (toUpperStr s) with
          | some q => (acc.1 ++ [q], acc.2)
          | none => (acc.1, acc.2 ++ [(s, "Stock not found")]))
        ([], []))

/-- The batch loop of `broadcastStockUpdates`: one `fetch` call per batch;
a successful call contributes its `stocks` and `errors` to the
accumulators, a throw contributes a failure entry for every symbol of the
batch with the thrown message.  The per-batch database upserts and the
100ms inter-batch delay have no bearing on the accumulated results. -/
def runBatches
    (fetch : List String → Except String (List StockQuote × List (String × String))) :
    List (List String) → List StockQuote × List (String × String)
  | [] => ([], [])
  | b :: rest =>
    let r :=
      match fetch b with
      | Except.ok res => res
      | Except.error e => ([], b.map (fun s => (s, e)))
    let tailRes := runBatches fetch rest
    (r.1 ++ tailRes.1, r.2 ++ tailRes.2)

/-- `Array.from(subscriptions.keys())`. -/
def cycleSymbols (st : ServerState) : List String :=
  st.subscriptions.map Prod.fst

/-- One refresh cycle's accumulated `allUpdates` and `allErrors`. -/
def refreshCycle (st : ServerState)
    (api : List String → Except String (String → Option StockQuote)) :
    List StockQuote × List (String × String) :=
  runBatches (getMultipleStockPrices api) (chunks (cycleSymbols st))

/-- The inner `subscribedClients.forEach` of the fan-out loops: emit `m` to
every listed socket id whose connection record is still present and whose
socket is still connected; absent or disconnected entries are skipped. -/
def deliverTo (st : ServerState) (clients : List Nat) (m : Msg) : List (Nat × Msg) :=
  clients.filterMap (fun cid =>
    match mget st.connections cid with
    | some conn => if conn.connected then some (cid, m) else none
    | none => none)

/-- The `allUpdates.forEach` fan-out loop: a `stock_update` per successful
quote to the current subscribers of its symbol. -/
def fanOutUpdates (st : ServerState) : List StockQuote → List (Nat × Msg)
  | [] => []
  | q :: rest =>
    deliverTo st (idxGet st.subscriptions q.symbol) (Msg.stockUpdate q.symbol q)
      ++ fanOutUpdates st rest

/-- The `allErrors.forEach` fan-out loop: a symbol-scoped `stock_error` per
failure to the current subscribers of its symbol. -/
def fanOutErrors (st : ServerState) : List (String × String) → List (Nat × Msg)
  | [] => []
  | e :: rest =>
    deliverTo st (idxGet st.subscriptions e.1) (Msg.stockError e.1 e.2)
      ++ fanOutErrors st rest

/-- Both fan-out loops of `broadcastStockUpdates` (the error loop runs
under an `allErrors.length > 0` guard). -/
def fanOut (st : ServerState) (ups : List StockQuote) (errs : List (String × String)) :
    List (Nat × Msg) :=
  fanOutUpdates st ups ++ (if 0 < errs.length then fanOutErrors st errs else [])

/-- `broadcastStockUpdates`: return immediately when no symbol is
subscribed, otherwise fetch all subscribed symbols in batches and fan the
accumulated results out. -/
def broadcastStockUpdates (st : ServerState)
    (api : List String → Except String (String → Option StockQuote)) :
    List (Nat × Msg) :=
  if st.subscriptions.length = 0 then []
  else
    let r := refreshCycle st api
    fanOut st r.1 r.2

/-- The broadcast loop of `forceStockUpdate` (`forced: true` messages). -/
def forceEmits (st : ServerState) : List StockQuote → List (Nat × Msg)
  | [] => []
  | q :: rest =>
    deliverTo st (idxGet st.subscriptions q.symbol) (Msg.stockUpdateForced q.symbol q)
      ++ forceEmits st rest

/-- `forceStockUpdate`: a single `getMultipleStockPrices` call on the whole
`symbols` argument (no batching), then per-stock broadcast; a throw of the
fetcher is rethrown, in which case nothing is broadcast.  The non-array
guard at its entry is excluded by typing. -/
def forceStockUpdate (st : ServerState)
    (api : List String → Except String (String → Option StockQuote))
    (symbols : List String) :
    Except String ((List StockQuote × List (String × String)) × List (Nat × Msg)) :=
  match getMultipleStockPrices api symbols with
  | Except.error e => Except.error e
  | Except.ok r => Except.ok (r, forceEmits st r.1)

/-- One item of a watchlist document, as read by `item => item.symbol`. -/
structure WatchlistItem where
  symbol : String
deriving DecidableEq

/-- A watchlist document as the handler reads it: its `items` array.  (The
actual mongoose schema stores the array under `stocks`; the handler
nevertheless reads `items`.) -/
structure WatchlistDoc where
  items : List WatchlistItem
deriving DecidableEq

/-- Outcome of `await Watchlist.findDefaultWatchlist(userId)`:
`throws` models a raised exception — which is what actually happens at
runtime, since the watchlist model defines `findDefaultByUserId` and no
`findDefaultWatchlist`, so the call is a TypeError on `undefined` —
and `found` models a resolved lookup (`none` = no document). -/
inductive WatchlistLookup where
  | throws (msg : String)
  | found : Option WatchlistDoc → WatchlistLookup

/-- The `subscribe_watchlist` event handler.  `userId = none` models a
missing or falsy user id.  On a resolved non-empty watchlist the handler
executes `socket.emit('subscribe', { symbols })`, which sends a message
named `subscribe` to the client — it does not invoke the server's own
subscribe handler — so the module state is returned unchanged on every
path and no `watchlist_subscribed` carrying symbols is ever emitted. -/
def handleSubscribeWatchlist (st : ServerState) (userId : Option String)
    (lookup : WatchlistLookup) : ServerState × List Msg :=
  match userId with
  | none => (st, [Msg.subscriptionError "User ID required for watchlist subscription"])
  | some _ =>
    match lookup with
    | WatchlistLookup.throws _ =>
      (st, [Msg.subscriptionError "Failed to subscribe to watchlist"])
    | WatchlistLookup.found none =>
      (st, [Msg.watchlistSubscribed [] "No watchlist found or empty"])
    | WatchlistLookup.found (some w) =>
      if w.items.length = 0 then
        (st, [Msg.watchlistSubscribed [] "No watchlist found or empty"])
      else
        (st, [Msg.subscribeMessage (w.items.map (fun item => item.symbol))])

/-- A connection record is present and its socket still connected — the
condition under which the fan-out loops emit. -/
def ConnectedIn (st : ServerState) (cid : Nat) : Prop :=
  ∃ conn, mget st.connections cid = some conn ∧ conn.connected = true

/-- The registry consistency property of the specification: a symbol is a
key of the index exactly when some connection subscribes to it, and each
connection's subscription set agrees with the index entries pointwise. -/
def RegistryConsistent (st : ServerState) : Prop :=
  (∀ s, (mget st.subscriptions s).isSome = true ↔
    ∃ cid conn, mget st.connections cid = some conn ∧ s ∈ conn.subs) ∧
  (∀ cid conn s, mget st.connections cid = some conn →
    (s ∈ conn.subs ↔ cid ∈ idxGet st.subscriptions s))

/-- The inductive invariant of the registry, over its three components:
subscription sets and index entries are duplicate-free, no empty symbol is
ever subscribed, index entries are non-empty (pruning), the two maps agree
in both directions, and the timer is live exactly when the index is
non-empty. -/
structure RegInv (conns : List (Nat × Conn)) (idx : List (String × List Nat))
    (flag : Bool) : Prop where
  connNodup : ∀ cid conn, mget conns cid = some conn → conn.subs.Nodup
  connNoEmptySym : ∀ cid conn, mget conns cid = some conn → "" ∉ conn.subs
  idxNodup : ∀ s l, mget idx s = some l → l.Nodup
  idxNe : ∀ s l, mget idx s = some l → l ≠ []
  fwd : ∀ cid conn, mget conns cid = some conn → ∀ s ∈ conn.subs, cid ∈ idxGet idx s
  bwd : ∀ s cid, cid ∈ idxGet idx s → ∃ conn, mget conns cid = some conn ∧ s ∈ conn.subs
  sched : flag = true ↔ idx ≠ []

/-- The inductive invariant of a full server state. -/
def Inv (st : ServerState) : Prop :=
  RegInv st.connections st.subscriptions st.updateInterval

/-- Invariant threaded through the subscribe and unsubscribe loops: the
connection map is fixed while the loop rewrites the subscription set of
connection `cid` and the index. -/
structure LoopInv (conns : List (Nat × Conn)) (cid : Nat) (subs : List String)
    (idx : List (String × List Nat)) : Prop where
  subsNodup : subs.Nodup
  subsNoEmpty : "" ∉ subs
  idxNodup : ∀ s l, mget idx s = some l → l.Nodup
  idxNe : ∀ s l, mget idx s = some l → l ≠ []
  fwdOther : ∀ cid' conn', mget conns cid' = some conn' → cid' ≠ cid →
    ∀ s ∈ conn'.subs, cid' ∈ idxGet idx s
  fwdSelf : ∀ s ∈ subs, cid ∈ idxGet idx s
  bwd : ∀ s cid', cid' ∈ idxGet idx s →
    (cid' = cid ∧ s ∈ subs) ∨
    (cid' ≠ cid ∧ ∃ conn', mget conns cid' = some conn' ∧ s ∈ conn'.subs)

/-- `n` distinct canonical symbols `S0`, `S1`, ... used by concrete test
states. -/
def symsN (n : Nat) : List String := (List.range n).map (fun k => "S" ++ toString k)

/-- A state with one connection (socket id 0) subscribed to `AAPL` via the
lowercase request `["aapl"]`. -/
def stateA : ServerState :=
  (handleSubscribe (handleConnect initState 0) 0 (some ["aapl"])).1

/-- A state with one connection holding 48 subscriptions. -/
def state48 : ServerState :=
  (handleSubscribe (handleConnect initState 0) 0 (some (symsN 48))).1

/-- A state with one connection holding exactly the cap of 50 subscriptions. -/
def state50 : ServerState :=
  (handleSubscribe (handleConnect initState 0) 0 (some (symsN 50))).1

/-- A state with one connection subscribed to 12 symbols, so that a refresh
cycle uses two batches (10 + 2). -/
def state12 : ServerState :=
  (handleSubscribe (handleConnect initState 0) 0 (some (symsN 12))).1

/-- An upstream oracle whose every batch call throws `boom`. -/
def apiBoom : List String → Except String (String → Option StockQuote) :=
  fun _ => Except.error "boom"

/-- An upstream oracle that always resolves with a body containing no
quotes. -/
def apiNone : List String → Except String (String → Option StockQuote) :=
  fun _ => Except.ok (fun _ => none)

theorem mget_mset_self {κ ν : Type} [DecidableEq κ] (m : List (κ × ν)) (k : κ) (v : ν) :
    mget (mset m k v) k = some v := by
  induction m with
  | nil => simp [mset, mget]
  | cons p m ih =>
    by_cases h : p.1 = k
    · simp [mset, h, mget]
    · simp [mset, h, mget, ih]

theorem mget_mset_ne {κ ν : Type} [DecidableEq κ] {m : List (κ × ν)} {k k' : κ} {v : ν}
    (h : k' ≠ k) : mget (mset m k v) k' = mget m k' := by
  induction m with
  | nil => simp [mset, mget, Ne.symm h]
  | cons p m ih =>
    by_cases hp : p.1 = k
    · have hp' : p.1 ≠ k' := by rw [hp]; exact Ne.symm h
      simp [mset, hp, mget, Ne.symm h, hp']
    · by_cases hq : p.1 = k'
      · simp [mset, hp, mget, hq, h]
      · simp [mset, hp, mget, hq, ih]

theorem mset_ne_nil {κ ν : Type} [DecidableEq κ] (m : List (κ × ν)) (k : κ) (v : ν) :
    mset m k v ≠ [] := by
  cases m with
  | nil => simp [mset]
  | cons p m => simp only [mset]; split <;> simp

theorem mset_self {κ ν : Type} [DecidableEq κ] {m : List (κ × ν)} {k : κ} {v : ν}
    (h : mget m k = some v) : mset m k v = m := by
  induction m with
  | nil => simp [mget] at h
  | cons p m ih =>
    by_cases hp : p.1 = k
    · simp only [mget, hp, if_pos] at h
      have hv : p.2 = v := Option.some_injective _ h
      simp only [mset, hp, if_pos]
      rw [← hp, ← hv]
    · simp only [mget, hp, if_neg, ite_false] at h
      simp [mset, hp, ih h]

theorem mget_mdel_self {κ ν : Type} [DecidableEq κ] (m : List (κ × ν)) (k : κ) :
    mget (mdel m k) k = none := by
  induction m with
  | nil => simp [mdel, mget]
  | cons p m ih =>
    by_cases hp : p.1 = k
    · simp [mdel, hp, ih]
    · simp [mdel, hp, mget, ih]

theorem mget_mdel_ne {κ ν : Type} [DecidableEq κ] {m : List (κ × ν)} {k k' : κ}
    (h : k' ≠ k) : mget (mdel m k) k' = mget m k' := by
  induction m with
  | nil => simp [mdel]
  | cons p m ih =>
    by_cases hp : p.1 = k
    · have hp' : p.1 ≠ k' := by rw [hp]; exact Ne.symm h
      simp [mdel, hp, mget, hp', Ne.symm h, ih]
    · simp only [mdel, hp, ite_false, if_neg, mget]
      by_cases hq : p.1 = k'
      · simp [hq]
      · simp [hq, ih]

theorem mem_setAdd {α : Type} [DecidableEq α] {l : List α} {x a : α} :
    a ∈ setAdd l x ↔ a ∈ l ∨ a = x := by
  unfold setAdd
  split
  · constructor
    · exact Or.inl
    · intro h
      rcases h with h | h
      · exact h
      · rw [h]; assumption
  · simp

theorem setAdd_nodup {α : Type} [DecidableEq α] {l : List α} {x : α}
    (h : l.Nodup) : (setAdd l x).Nodup := by
  unfold setAdd
  split
  · exact h
  · rw [List.nodup_append]
    refine ⟨h, List.nodup_singleton x, ?_⟩
    intro a ha hx
    rw [List.mem_singleton] at hx
    subst hx
    exact absurd ha (by assumption)

theorem setAdd_ne_nil {α : Type} [DecidableEq α] (l : List α) (x : α) :
    setAdd l x ≠ [] := by
  unfold setAdd
  split
  · exact List.ne_nil_of_mem (by assumption)
  · simp

theorem setAdd_self {α : Type} [DecidableEq α] {l : List α} {x : α} (h : x ∈ l) :
    setAdd l x = l := by simp [setAdd, h]

theorem mem_idxGet_iff {idx : List (String × List Nat)} {s : String} {cid : Nat} :
    cid ∈ idxGet idx s ↔ ∃ l, mget idx s = some l ∧ cid ∈ l := by
  cases h : mget idx s <;> simp [idxGet, h]

theorem idxGet_nodup {idx : List (String × List Nat)}
    (h : ∀ s l, mget idx s = some l → l.Nodup) (s : String) : (idxGet idx s).Nodup := by
  cases hm : mget idx s with
  | none => simp [idxGet, hm]
  | some l => simpa [idxGet, hm] using h s l hm

theorem mem_indexAdd {idx : List (String × List Nat)} {s s' : String} {cid cid' : Nat} :
    cid' ∈ idxGet (indexAdd idx s cid) s' ↔
      cid' ∈ idxGet idx s' ∨ (s' = s ∧ cid' = cid) := by
  unfold indexAdd
  by_cases h : s' = s
  · subst h
    rw [idxGet, mget_mset_self, Option.getD_some, mem_setAdd]
    simp
  · simp [idxGet, mget_mset_ne h, h]

theorem indexAdd_nodup {idx : List (String × List Nat)} {s : String} {cid : Nat}
    (h : ∀ s' l, mget idx s' = some l → l.Nodup) :
    ∀ s' l, mget (indexAdd idx s cid) s' = some l → l.Nodup := by
  intro s' l hl
  by_cases hs : s' = s
  · subst hs
    rw [indexAdd, mget_mset_self] at hl
    cases hl
    exact setAdd_nodup (idxGet_nodup h s')
  · rw [indexAdd, mget_mset_ne hs] at hl
    exact h s' l hl

theorem indexAdd_ne {idx : List (String × List Nat)} {s : String} {cid : Nat}
    (h : ∀ s' l, mget idx s' = some l → l ≠ []) :
    ∀ s' l, mget (indexAdd idx s cid) s' = some l → l ≠ [] := by
  intro s' l hl
  by_cases hs : s' = s
  · subst hs
    rw [indexAdd, mget_mset_self] at hl
    cases hl
    exact setAdd_ne_nil _ _
  · rw [indexAdd, mget_mset_ne hs] at hl
    exact h s' l hl

theorem indexAdd_ne_nil (idx : List (String × List Nat)) (s : String) (cid : Nat) :
    indexAdd idx s cid ≠ [] := mset_ne_nil _ _ _

theorem indexRemove_none {idx : List (String × List Nat)} {s : String} {cid : Nat}
    (hm : mget idx s = none) : indexRemove idx s cid = idx := by
  unfold indexRemove
  rw [hm]

theorem indexRemove_some {idx : List (String × List Nat)} {s : String} {cid : Nat}
    {l : List Nat} (hm : mget idx s = some l) :
    indexRemove idx s cid =
      if (setDel l cid).length = 0 then mdel idx s else mset idx s (setDel l cid) := by
  unfold indexRemove
  rw [hm]

theorem mem_indexRemove {idx : List (String × List Nat)} {s s' : String} {cid cid' : Nat}
    (hnd : ∀ s'' l, mget idx s'' = some l → l.Nodup) :
    cid' ∈ idxGet (indexRemove idx s cid) s' ↔
      cid' ∈ idxGet idx s' ∧ ¬(s' = s ∧ cid' = cid) := by
  cases hm : mget idx s with
  | none =>
    rw [indexRemove_none hm]
    by_cases hs : s' = s
    · subst hs
      simp [idxGet, hm]
    · simp [hs]
  | some l =>
    have hnodup : l.Nodup := hnd s l hm
    have herase : ∀ a : Nat, a ∈ setDel l cid ↔ a ≠ cid ∧ a ∈ l :=
      fun a => hnodup.mem_erase_iff
    rw [indexRemove_some hm]
    by_cases hz : (setDel l cid).length = 0
    · have hnil : setDel l cid = [] := List.length_eq_zero.mp hz
      rw [if_pos hz]
      by_cases hs : s' = s
      · subst hs
        rw [idxGet, mget_mdel_self, Option.getD_none, idxGet, hm, Option.getD_some]
        simp only [List.not_mem_nil, false_iff]
        intro hc
        rcases hc with ⟨hcl, hne⟩
        have hmem : cid' ∈ setDel l cid :=
          (herase cid').mpr ⟨fun he => hne ⟨by trivial, he⟩, hcl⟩
        rw [hnil] at hmem
        exact List.not_mem_nil _ hmem
      · simp [idxGet, mget_mdel_ne hs, hs]
    · rw [if_neg hz]
      by_cases hs : s' = s
      · subst hs
        rw [idxGet, mget_mset_self, Option.getD_some, idxGet, hm, Option.getD_some,
          herase cid']
        constructor
        · intro hx
          exact ⟨hx.2, fun hc => hx.1 hc.2⟩
        · intro hx
          refine ⟨fun he => hx.2 ?_, hx.1⟩
          constructor
          · trivial
          · exact he
      · simp [idxGet, mget_mset_ne hs, hs]

theorem indexRemove_nodup {idx : List (String × List Nat)} {s : String} {cid : Nat}
    (h : ∀ s' l, mget idx s' = some l → l.Nodup) :
    ∀ s' l, mget (indexRemove idx s cid) s' = some l → l.Nodup := by
  intro s' l hl
  unfold indexRemove at hl
  cases hm : mget idx s with
  | none => rw [hm] at hl; exact h s' l hl
  | some l0 =>
    rw [hm] at hl
    simp only at hl
    split at hl
    · by_cases hs : s' = s
      · subst hs; rw [mget_mdel_self] at hl; cases hl
      · rw [mget_mdel_ne hs] at hl; exact h s' l hl
    · by_cases hs : s' = s
      · subst hs
        rw [mget_mset_self] at hl
        cases hl
        exact (h s' l0 hm).erase cid
      · rw [mget_mset_ne hs] at hl
        exact h s' l hl

theorem indexRemove_ne {idx : List (String × List Nat)} {s : String} {cid : Nat}
    (h : ∀ s' l, mget idx s' = some l → l ≠ []) :
    ∀ s' l, mget (indexRemove idx s cid) s' = some l → l ≠ [] := by
  intro s' l hl
  unfold indexRemove at hl
  cases hm : mget idx s with
  | none => rw [hm] at hl; exact h s' l hl
  | some l0 =>
    rw [hm] at hl
    simp only at hl
    split at hl
    · by_cases hs : s' = s
      · subst hs; rw [mget_mdel_self] at hl; cases hl
      · rw [mget_mdel_ne hs] at hl; exact h s' l hl
    · by_cases hs : s' = s
      · subst hs
        rw [mget_mset_self] at hl
        cases hl
        intro hc
        rename_i hz
        exact hz (by rw [hc]; rfl)
      · rw [mget_mset_ne hs] at hl
        exact h s' l hl

theorem indexRemove_nil (s : String) (cid : Nat) :
    indexRemove ([] : List (String × List Nat)) s cid = [] := rfl

theorem subStep_inv {conns : List (Nat × Conn)} {cid : Nat} {subs : List String}
    {idx : List (String × List Nat)} {clean : String} (hclean : clean ≠ "")
    (h : LoopInv conns cid subs idx) :
    LoopInv conns cid (setAdd subs clean) (indexAdd idx clean cid) := by
  refine ⟨setAdd_nodup h.subsNodup, ?_, indexAdd_nodup h.idxNodup, indexAdd_ne h.idxNe,
    ?_, ?_, ?_⟩
  · intro hmem
    rcases mem_setAdd.mp hmem with hm | hm
    · exact h.subsNoEmpty hm
    · exact hclean hm.symm
  · intro cid' conn' hg hne s hs
    exact mem_indexAdd.mpr (Or.inl (h.fwdOther cid' conn' hg hne s hs))
  · intro s hs
    rcases mem_setAdd.mp hs with hm | hm
    · exact mem_indexAdd.mpr (Or.inl (h.fwdSelf s hm))
    · exact mem_indexAdd.mpr (Or.inr ⟨hm, rfl⟩)
  · intro s cid' hmem
    rcases mem_indexAdd.mp hmem with hm | hm
    · rcases h.bwd s cid' hm with ⟨he, hsub⟩ | ⟨hne, hex⟩
      · exact Or.inl ⟨he, mem_setAdd.mpr (Or.inl hsub)⟩
      · exact Or.inr ⟨hne, hex⟩
    · exact Or.inl ⟨hm.2, mem_setAdd.mpr (Or.inr hm.1)⟩

theorem unsubStep_inv {conns : List (Nat × Conn)} {cid : Nat} {subs : List String}
    {idx : List (String × List Nat)} {clean : String}
    (h : LoopInv conns cid subs idx) :
    LoopInv conns cid (setDel subs clean) (indexRemove idx clean cid) := by
  refine ⟨h.subsNodup.erase clean, ?_, indexRemove_nodup h.idxNodup,
    indexRemove_ne h.idxNe, ?_, ?_, ?_⟩
  · intro hmem
    exact h.subsNoEmpty (List.mem_of_mem_erase hmem)
  · intro cid' conn' hg hne s hs
    exact (mem_indexRemove h.idxNodup).mpr
      ⟨h.fwdOther cid' conn' hg hne s hs, fun hcc => hne hcc.2⟩
  · intro s hs
    have hs' : s ≠ clean ∧ s ∈ subs := h.subsNodup.mem_erase_iff.mp hs
    exact (mem_indexRemove h.idxNodup).mpr
      ⟨h.fwdSelf s hs'.2, fun hcc => hs'.1 hcc.1⟩
  · intro s cid' hmem
    have hm := (mem_indexRemove h.idxNodup).mp hmem
    rcases h.bwd s cid' hm.1 with ⟨he, hsub⟩ | hother
    · refine Or.inl ⟨he, ?_⟩
      have hsne : s ≠ clean := fun he2 => hm.2 ⟨he2, he⟩
      exact h.subsNodup.mem_erase_iff.mpr ⟨hsne, hsub⟩
    · exact Or.inr hother

theorem subscribeLoop_inv {conns : List (Nat × Conn)} {cid : Nat} :
    ∀ (syms : List String) (r : SubLoopRes), LoopInv conns cid r.subs r.index →
      LoopInv conns cid (subscribeLoop cid syms r).subs (subscribeLoop cid syms r).index := by
  intro syms
  induction syms with
  | nil => intro r h; exact h
  | cons sym rest ih =>
    intro r h
    by_cases hc : cleanSym sym = ""
    · rw [subscribeLoop]
      simp only [hc, if_pos]
      exact ih _ h
    · rw [subscribeLoop]
      simp only [hc, if_neg, ite_false]
      exact ih _ (subStep_inv hc h)

theorem unsubscribeLoop_inv {conns : List (Nat × Conn)} {cid : Nat} :
    ∀ (syms : List String) (r : UnsubLoopRes), LoopInv conns cid r.subs r.index →
      LoopInv conns cid (unsubscribeLoop cid syms r).subs (unsubscribeLoop cid syms r).index := by
  intro syms
  induction syms with
  | nil => intro r h; exact h
  | cons sym rest ih =>
    intro r h
    rw [unsubscribeLoop]
    exact ih _ (unsubStep_inv h)

theorem subscribeLoop_index_ne {cid : Nat} :
    ∀ (syms : List String) (r : SubLoopRes), r.index ≠ [] →
      (subscribeLoop cid syms r).index ≠ [] := by
  intro syms
  induction syms with
  | nil => intro r h; exact h
  | cons sym rest ih =>
    intro r h
    by_cases hc : cleanSym sym = ""
    · rw [subscribeLoop]
      simp only [hc, if_pos]
      exact ih _ h
    · rw [subscribeLoop]
      simp only [hc, if_neg, ite_false]
      exact ih _ (indexAdd_ne_nil _ _ _)

theorem unsubscribeLoop_index_nil {cid : Nat} :
    ∀ (syms : List String) (r : UnsubLoopRes), r.index = [] →
      (unsubscribeLoop cid syms r).index = [] := by
  intro syms
  induction syms with
  | nil => intro r h; exact h
  | cons sym rest ih =>
    intro r h
    rw [unsubscribeLoop]
    refine ih _ ?_
    show indexRemove r.index (cleanSym sym) cid = []
    rw [h]
    rfl

theorem foldRemove_nodup {cid : Nat} :
    ∀ (L : List String) (idx : List (String × List Nat)),
      (∀ s l, mget idx s = some l → l.Nodup) →
      ∀ s l, mget (L.foldl (fun i s => indexRemove i s cid) idx) s = some l → l.Nodup := by
  intro L
  induction L with
  | nil => intro idx h; exact h
  | cons a L ih =>
    intro idx h
    rw [List.foldl_cons]
    exact ih _ (indexRemove_nodup h)

theorem foldRemove_ne {cid : Nat} :
    ∀ (L : List String) (idx : List (String × List Nat)),
      (∀ s l, mget idx s = some l → l ≠ []) →
      ∀ s l, mget (L.foldl (fun i s => indexRemove i s cid) idx) s = some l → l ≠ [] := by
  intro L
  induction L with
  | nil => intro idx h; exact h
  | cons a L ih =>
    intro idx h
    rw [List.foldl_cons]
    exact ih _ (indexRemove_ne h)

theorem mem_foldRemove {cid : Nat} :
    ∀ (L : List String) (idx : List (String × List Nat)),
      (∀ s l, mget idx s = some l → l.Nodup) →
      ∀ s cid', cid' ∈ idxGet (L.foldl (fun i s => indexRemove i s cid) idx) s ↔
        (cid' ∈ idxGet idx s ∧ ¬(cid' = cid ∧ s ∈ L)) := by
  intro L
  induction L with
  | nil =>
    intro idx h s cid'
    simp
  | cons a L ih =>
    intro idx hnd s cid'
    rw [List.foldl_cons, ih (indexRemove idx a cid) (indexRemove_nodup hnd) s cid',
      mem_indexRemove hnd]
    constructor
    · rintro ⟨⟨h1, h2⟩, h3⟩
      refine ⟨h1, ?_⟩
      rintro ⟨hc, hm⟩
      rcases List.mem_cons.mp hm with he | he
      · exact h2 ⟨he, hc⟩
      · exact h3 ⟨hc, he⟩
    · rintro ⟨h1, h2⟩
      refine ⟨⟨h1, ?_⟩, ?_⟩
      · rintro ⟨hsa, hcc⟩
        exact h2 ⟨hcc, List.mem_cons.mpr (Or.inl hsa)⟩
      · rintro ⟨hcc, hm⟩
        exact h2 ⟨hcc, List.mem_cons.mpr (Or.inr hm)⟩

theorem foldRemove_nil {cid : Nat} :
    ∀ (L : List String), L.foldl (fun i s => indexRemove i s cid) [] = [] := by
  intro L
  induction L with
  | nil => rfl
  | cons a L ih =>
    rw [List.foldl_cons, indexRemove_nil]
    exact ih

theorem handleSubscribe_noarray (st : ServerState) (cid : Nat) :
    handleSubscribe st cid none = (st, [Msg.subscriptionError "Invalid symbols array"]) := rfl

theorem handleSubscribe_noconn {st : ServerState} {cid : Nat} {symbols : List String}
    (hg : mget st.connections cid = none) :
    handleSubscribe st cid (some symbols) =
      (st, [Msg.subscriptionError "Connection not found"]) := by
  unfold handleSubscribe
  rw [hg]

theorem handleSubscribe_limit {st : ServerState} {cid : Nat} {symbols : List String}
    {conn : Conn} (hg : mget st.connections cid = some conn)
    (hlim : MAX_SUBSCRIPTIONS_PER_CLIENT < conn.subs.length + symbols.length) :
    handleSubscribe st cid (some symbols) =
      (st, [Msg.subscriptionError "Maximum 50 subscriptions allowed per client"]) := by
  unfold handleSubscribe
  rw [hg]
  simp only [if_pos hlim]

theorem handleSubscribe_main {st : ServerState} {cid : Nat} {symbols : List String}
    {conn : Conn} (hg : mget st.connections cid = some conn)
    (hlim : ¬MAX_SUBSCRIPTIONS_PER_CLIENT < conn.subs.length + symbols.length) :
    handleSubscribe st cid (some symbols) =
      ({ connections := mset st.connections cid
           { conn with subs := (subscribeLoop cid symbols ⟨conn.subs, st.subscriptions, [], []⟩).subs }
         subscriptions := (subscribeLoop cid symbols ⟨conn.subs, st.subscriptions, [], []⟩).index
         updateInterval :=
           if 0 < (subscribeLoop cid symbols ⟨conn.subs, st.subscriptions, [], []⟩).index.length ∧
               st.updateInterval = false then true
           else st.updateInterval },
       [Msg.subscribed (subscribeLoop cid symbols ⟨conn.subs, st.subscriptions, [], []⟩).accepted
         (subscribeLoop cid symbols ⟨conn.subs, st.subscriptions, [], []⟩).errs]) := by
  unfold handleSubscribe
  rw [hg]
  simp only [if_neg hlim]

theorem handleUnsubscribe_noarray (st : ServerState) (cid : Nat) :
    handleUnsubscribe st cid none = (st, [Msg.unsubscriptionError "Invalid symbols array"]) := rfl

theorem handleUnsubscribe_noconn {st : ServerState} {cid : Nat} {symbols : List String}
    (hg : mget st.connections cid = none) :
    handleUnsubscribe st cid (some symbols) = (st, []) := by
  unfold handleUnsubscribe
  rw [hg]

theorem handleUnsubscribe_main {st : ServerState} {cid : Nat} {symbols : List String}
    {conn : Conn} (hg : mget st.connections cid = some conn) :
    handleUnsubscribe st cid (some symbols) =
      ({ connections := mset st.connections cid
           { conn with subs := (unsubscribeLoop cid symbols ⟨conn.subs, st.subscriptions, []⟩).subs }
         subscriptions := (unsubscribeLoop cid symbols ⟨conn.subs, st.subscriptions, []⟩).index
         updateInterval :=
           if (unsubscribeLoop cid symbols ⟨conn.subs, st.subscriptions, []⟩).index.length = 0 ∧
               st.updateInterval = true then false
           else st.updateInterval },
       [Msg.unsubscribed (unsubscribeLoop cid symbols ⟨conn.subs, st.subscriptions, []⟩).unsubbed]) := by
  unfold handleUnsubscribe
  rw [hg]

theorem handleDisconnect_noconn {st : ServerState} {cid : Nat}
    (hg : mget st.connections cid = none) :
    handleDisconnect st cid =
      { connections := mdel st.connections cid
        subscriptions := st.subscriptions
        updateInterval :=
          if st.subscriptions.length = 0 ∧ st.updateInterval = true then false
          else st.updateInterval } := by
  unfold handleDisconnect
  rw [hg]

theorem handleDisconnect_main {st : ServerState} {cid : Nat} {conn : Conn}
    (hg : mget st.connections cid = some conn) :
    handleDisconnect st cid =
      { connections := mdel st.connections cid
        subscriptions := conn.subs.foldl (fun idx s => indexRemove idx s cid) st.subscriptions
        updateInterval :=
          if (conn.subs.foldl (fun idx s => indexRemove idx s cid) st.subscriptions).length = 0 ∧
              st.updateInterval = true then false
          else st.updateInterval } := by
  unfold handleDisconnect
  rw [hg]

theorem regInv_connect {conns : List (Nat × Conn)} {idx : List (String × List Nat)}
    {flag : Bool} {cid : Nat} (h : RegInv conns idx flag)
    (hfresh : mget conns cid = none) :
    RegInv (mset conns cid ⟨[], none, true⟩) idx flag := by
  refine ⟨?_, ?_, h.idxNodup, h.idxNe, ?_, ?_, h.sched⟩
  · intro cid' conn' hg
    by_cases he : cid' = cid
    · subst he; rw [mget_mset_self] at hg; cases hg; exact List.nodup_nil
    · rw [mget_mset_ne he] at hg; exact h.connNodup cid' conn' hg
  · intro cid' conn' hg
    by_cases he : cid' = cid
    · subst he; rw [mget_mset_self] at hg; cases hg; exact List.not_mem_nil _
    · rw [mget_mset_ne he] at hg; exact h.connNoEmptySym cid' conn' hg
  · intro cid' conn' hg s hs
    by_cases he : cid' = cid
    · subst he; rw [mget_mset_self] at hg; cases hg
      exact absurd hs (List.not_mem_nil s)
    · rw [mget_mset_ne he] at hg; exact h.fwd cid' conn' hg s hs
  · intro s cid' hm
    obtain ⟨conn, hg, hs⟩ := h.bwd s cid' hm
    have hne : cid' ≠ cid := by
      intro he; rw [he, hfresh] at hg; cases hg
    exact ⟨conn, by rw [mget_mset_ne hne]; exact hg, hs⟩

theorem regInv_subscribe_main {conns : List (Nat × Conn)} {idx : List (String × List Nat)}
    {flag : Bool} {cid : Nat} {conn : Conn} {symbols : List String}
    (h : RegInv conns idx flag) (hg : mget conns cid = some conn) :
    RegInv
      (mset conns cid
        { conn with subs := (subscribeLoop cid symbols ⟨conn.subs, idx, [], []⟩).subs })
      (subscribeLoop cid symbols ⟨conn.subs, idx, [], []⟩).index
      (if 0 < (subscribeLoop cid symbols ⟨conn.subs, idx, [], []⟩).index.length ∧
          flag = false then true
        else flag) := by
  have hL0 : LoopInv conns cid conn.subs idx := by
    refine ⟨h.connNodup cid conn hg, h.connNoEmptySym cid conn hg, h.idxNodup, h.idxNe,
      ?_, ?_, ?_⟩
    · intro cid' conn' hg' hne s hs
      exact h.fwd cid' conn' hg' s hs
    · intro s hs
      exact h.fwd cid conn hg s hs
    · intro s cid' hm
      rcases h.bwd s cid' hm with ⟨conn', hg', hs⟩
      by_cases he : cid' = cid
      · subst he
        rw [hg] at hg'
        cases hg'
        exact Or.inl ⟨rfl, hs⟩
      · exact Or.inr ⟨he, conn', hg', hs⟩
  have hL : LoopInv conns cid (subscribeLoop cid symbols ⟨conn.subs, idx, [], []⟩).subs
      (subscribeLoop cid symbols ⟨conn.subs, idx, [], []⟩).index :=
    subscribeLoop_inv symbols ⟨conn.subs, idx, [], []⟩ hL0
  refine ⟨?_, ?_, hL.idxNodup, hL.idxNe, ?_, ?_, ?_⟩
  · intro cid' conn' hg'
    by_cases he : cid' = cid
    · subst he; rw [mget_mset_self] at hg'; cases hg'; exact hL.subsNodup
    · rw [mget_mset_ne he] at hg'; exact h.connNodup cid' conn' hg'
  · intro cid' conn' hg'
    by_cases he : cid' = cid
    · subst he; rw [mget_mset_self] at hg'; cases hg'; exact hL.subsNoEmpty
    · rw [mget_mset_ne he] at hg'; exact h.connNoEmptySym cid' conn' hg'
  · intro cid' conn' hg' s hs
    by_cases he : cid' = cid
    · subst he; rw [mget_mset_self] at hg'; cases hg'; exact hL.fwdSelf s hs
    · rw [mget_mset_ne he] at hg'; exact hL.fwdOther cid' conn' hg' he s hs
  · intro s cid' hm
    rcases hL.bwd s cid' hm with ⟨he, hs⟩ | ⟨hne, conn', hg', hs⟩
    · subst he
      exact ⟨_, mget_mset_self conns cid' _, hs⟩
    · exact ⟨conn', by rw [mget_mset_ne hne]; exact hg', hs⟩
  · by_cases hf : flag = true
    · have hidx : idx ≠ [] := h.sched.mp hf
      have hne : (subscribeLoop cid symbols ⟨conn.subs, idx, [], []⟩).index ≠ [] :=
        subscribeLoop_index_ne symbols _ hidx
      have hcond : ¬(0 < (subscribeLoop cid symbols ⟨conn.subs, idx, [], []⟩).index.length ∧
          flag = false) := by
        rintro ⟨_, hff⟩
        rw [hf] at hff
        cases hff
      rw [if_neg hcond]
      exact ⟨fun _ => hne, fun _ => hf⟩
    · have hff : flag = false := by revert hf; cases flag <;> simp
      by_cases hne : (subscribeLoop cid symbols ⟨conn.subs, idx, [], []⟩).index = []
      · have hcond : ¬(0 < (subscribeLoop cid symbols ⟨conn.subs, idx, [], []⟩).index.length ∧
            flag = false) := by
          rw [hne]
          simp
        rw [if_neg hcond, hff]
        simp [hne]
      · have hpos : 0 < (subscribeLoop cid symbols ⟨conn.subs, idx, [], []⟩).index.length :=
          List.length_pos.mpr hne
        rw [if_pos ⟨hpos, hff⟩]
        exact ⟨fun _ => hne, fun _ => rfl⟩

theorem regInv_unsubscribe_main {conns : List (Nat × Conn)} {idx : List (String × List Nat)}
    {flag : Bool} {cid : Nat} {conn : Conn} {symbols : List String}
    (h : RegInv conns idx flag) (hg : mget conns cid = some conn) :
    RegInv
      (mset conns cid
        { conn with subs := (unsubscribeLoop cid symbols ⟨conn.subs, idx, []⟩).subs })
      (unsubscribeLoop cid symbols ⟨conn.subs, idx, []⟩).index
      (if (unsubscribeLoop cid symbols ⟨conn.subs, idx, []⟩).index.length = 0 ∧
          flag = true then false
        else flag) := by
  have hL0 : LoopInv conns cid conn.subs idx := by
    refine ⟨h.connNodup cid conn hg, h.connNoEmptySym cid conn hg, h.idxNodup, h.idxNe,
      ?_, ?_, ?_⟩
    · intro cid' conn' hg' hne s hs
      exact h.fwd cid' conn' hg' s hs
    · intro s hs
      exact h.fwd cid conn hg s hs
    · intro s cid' hm
      rcases h.bwd s cid' hm with ⟨conn', hg', hs⟩
      by_cases he : cid' = cid
      · subst he
        rw [hg] at hg'
        cases hg'
        exact Or.inl ⟨rfl, hs⟩
      · exact Or.inr ⟨he, conn', hg', hs⟩
  have hL : LoopInv conns cid (unsubscribeLoop cid symbols ⟨conn.subs, idx, []⟩).subs
      (unsubscribeLoop cid symbols ⟨conn.subs, idx, []⟩).index :=
    unsubscribeLoop_inv symbols ⟨conn.subs, idx, []⟩ hL0
  refine ⟨?_, ?_, hL.idxNodup, hL.idxNe, ?_, ?_, ?_⟩
  · intro cid' conn' hg'
    by_cases he : cid' = cid
    · subst he; rw [mget_mset_self] at hg'; cases hg'; exact hL.subsNodup
    · rw [mget_mset_ne he] at hg'; exact h.connNodup cid' conn' hg'
  · intro cid' conn' hg'
    by_cases he : cid' = cid
    · subst he; rw [mget_mset_self] at hg'; cases hg'; exact hL.subsNoEmpty
    · rw [mget_mset_ne he] at hg'; exact h.connNoEmptySym cid' conn' hg'
  · intro cid' conn' hg' s hs
    by_cases he : cid' = cid
    · subst he; rw [mget_mset_self] at hg'; cases hg'; exact hL.fwdSelf s hs
    · rw [mget_mset_ne he] at hg'; exact hL.fwdOther cid' conn' hg' he s hs
  · intro s cid' hm
    rcases hL.bwd s cid' hm with ⟨he, hs⟩ | ⟨hne, conn', hg', hs⟩
    · subst he
      exact ⟨_, mget_mset_self conns cid' _, hs⟩
    · exact ⟨conn', by rw [mget_mset_ne hne]; exact hg', hs⟩
  · by_cases hf : flag = true
    · by_cases hne : (unsubscribeLoop cid symbols ⟨conn.subs, idx, []⟩).index = []
      · rw [if_pos ⟨by rw [hne]; rfl, hf⟩]
        simp [hne]
      · have hcond : ¬((unsubscribeLoop cid symbols ⟨conn.subs, idx, []⟩).index.length = 0 ∧
            flag = true) := by
          rintro ⟨hz, _⟩
          exact hne (List.length_eq_zero.mp hz)
        rw [if_neg hcond]
        exact ⟨fun _ => hne, fun _ => hf⟩
    · have hff : flag = false := by revert hf; cases flag <;> simp
      have hidx : idx = [] := by
        by_contra hc
        exact hf (h.sched.mpr hc)
      have hnil : (unsubscribeLoop cid symbols ⟨conn.subs, idx, []⟩).index = [] :=
        unsubscribeLoop_index_nil symbols _ hidx
      have hcond : ¬((unsubscribeLoop cid symbols ⟨conn.subs, idx, []⟩).index.length = 0 ∧
          flag = true) := by
        rintro ⟨_, ht⟩
        rw [hff] at ht
        cases ht
      rw [if_neg hcond, hff]
      simp [hnil]

theorem regInv_disconnect_main {conns : List (Nat × Conn)} {idx : List (String × List Nat)}
    {flag : Bool} {cid : Nat} {conn : Conn}
    (h : RegInv conns idx flag) (hg : mget conns cid = some conn) :
    RegInv (mdel conns cid)
      (conn.subs.foldl (fun i s => indexRemove i s cid) idx)
      (if (conn.subs.foldl (fun i s => indexRemove i s cid) idx).length = 0 ∧
          flag = true then false
        else flag) := by
  refine ⟨?_, ?_, foldRemove_nodup conn.subs idx h.idxNodup,
    foldRemove_ne conn.subs idx h.idxNe, ?_, ?_, ?_⟩
  · intro cid' conn' hg'
    have hne : cid' ≠ cid := by
      intro he; rw [he, mget_mdel_self] at hg'; cases hg'
    rw [mget_mdel_ne hne] at hg'
    exact h.connNodup cid' conn' hg'
  · intro cid' conn' hg'
    have hne : cid' ≠ cid := by
      intro he; rw [he, mget_mdel_self] at hg'; cases hg'
    rw [mget_mdel_ne hne] at hg'
    exact h.connNoEmptySym cid' conn' hg'
  · intro cid' conn' hg' s hs
    have hne : cid' ≠ cid := by
      intro he; rw [he, mget_mdel_self] at hg'; cases hg'
    rw [mget_mdel_ne hne] at hg'
    exact (mem_foldRemove conn.subs idx h.idxNodup s cid').mpr
      ⟨h.fwd cid' conn' hg' s hs, fun hcc => hne hcc.1⟩
  · intro s cid' hm
    have hm' := (mem_foldRemove conn.subs idx h.idxNodup s cid').mp hm
    obtain ⟨conn', hg', hs⟩ := h.bwd s cid' hm'.1
    have hne : cid' ≠ cid := by
      intro he
      subst he
      rw [hg] at hg'
      cases hg'
      exact hm'.2 ⟨rfl, hs⟩
    exact ⟨conn', by rw [mget_mdel_ne hne]; exact hg', hs⟩
  · by_cases hf : flag = true
    · by_cases hnil : conn.subs.foldl (fun i s => indexRemove i s cid) idx = []
      · rw [if_pos ⟨by rw [hnil]; rfl, hf⟩]
        simp [hnil]
      · have hcond : ¬((conn.subs.foldl (fun i s => indexRemove i s cid) idx).length = 0 ∧
            flag = true) := by
          rintro ⟨hz, _⟩
          exact hnil (List.length_eq_zero.mp hz)
        rw [if_neg hcond]
        exact ⟨fun _ => hnil, fun _ => hf⟩
    · have hff : flag = false := by revert hf; cases flag <;> simp
      have hidx : idx = [] := by
        by_contra hc
        exact hf (h.sched.mpr hc)
      have hnil : conn.subs.foldl (fun i s => indexRemove i s cid) idx = [] := by
        rw [hidx]
        exact foldRemove_nil conn.subs
      have hcond : ¬((conn.subs.foldl (fun i s => indexRemove i s cid) idx).length = 0 ∧
          flag = true) := by
        rintro ⟨_, ht⟩
        rw [hff] at ht
        cases ht
      rw [if_neg hcond, hff]
      simp [hnil]

theorem regInv_disconnect_noconn {conns : List (Nat × Conn)} {idx : List (String × List Nat)}
    {flag : Bool} {cid : Nat}
    (h : RegInv conns idx flag) (hg : mget conns cid = none) :
    RegInv (mdel conns cid) idx
      (if idx.length = 0 ∧ flag = true then false else flag) := by
  refine ⟨?_, ?_, h.idxNodup, h.idxNe, ?_, ?_, ?_⟩
  · intro cid' conn' hg'
    have hne : cid' ≠ cid := by
      intro he; rw [he, mget_mdel_self] at hg'; cases hg'
    rw [mget_mdel_ne hne] at hg'
    exact h.connNodup cid' conn' hg'
  · intro cid' conn' hg'
    have hne : cid' ≠ cid := by
      intro he; rw [he, mget_mdel_self] at hg'; cases hg'
    rw [mget_mdel_ne hne] at hg'
    exact h.connNoEmptySym cid' conn' hg'
  · intro cid' conn' hg' s hs
    have hne : cid' ≠ cid := by
      intro he; rw [he, mget_mdel_self] at hg'; cases hg'
    rw [mget_mdel_ne hne] at hg'
    exact h.fwd cid' conn' hg' s hs
  · intro s cid' hm
    obtain ⟨conn', hg', hs⟩ := h.bwd s cid' hm
    have hne : cid' ≠ cid := by
      intro he; rw [he, hg] at hg'; cases hg'
    exact ⟨conn', by rw [mget_mdel_ne hne]; exact hg', hs⟩
  · by_cases hf : flag = true
    · have hidx : idx ≠ [] := h.sched.mp hf
      have hcond : ¬(idx.length = 0 ∧ flag = true) := by
        rintro ⟨hz, _⟩
        exact hidx (List.length_eq_zero.mp hz)
      rw [if_neg hcond]
      exact ⟨fun _ => hidx, fun _ => hf⟩
    · have hff : flag = false := by revert hf; cases flag <;> simp
      have hidx : idx = [] := by
        by_contra hc
        exact hf (h.sched.mpr hc)
      have hcond : ¬(idx.length = 0 ∧ flag = true) := by
        rintro ⟨_, ht⟩
        rw [hff] at ht
        cases ht
      rw [if_neg hcond, hff]
      simp [hidx]

theorem inv_connect {st : ServerState} {cid : Nat} (hInv : Inv st)
    (hfresh : mget st.connections cid = none) : Inv (handleConnect st cid) :=
  regInv_connect hInv hfresh

theorem inv_subscribe {st : ServerState} {cid : Nat} {payload : Option (List String)}
    (hInv : Inv st) : Inv (handleSubscribe st cid payload).1 := by
  cases payload with
  | none => rw [handleSubscribe_noarray]; exact hInv
  | some symbols =>
    cases hg : mget st.connections cid with
    | none => rw [handleSubscribe_noconn hg]; exact hInv
    | some conn =>
      by_cases hlim : MAX_SUBSCRIPTIONS_PER_CLIENT < conn.subs.length + symbols.length
      · rw [handleSubscribe_limit hg hlim]; exact hInv
      · rw [handleSubscribe_main hg hlim]
        exact regInv_subscribe_main hInv hg

theorem inv_unsubscribe {st : ServerState} {cid : Nat} {payload : Option (List String)}
    (hInv : Inv st) : Inv (handleUnsubscribe st cid payload).1 := by
  cases payload with
  | none => rw [handleUnsubscribe_noarray]; exact hInv
  | some symbols =>
    cases hg : mget st.connections cid with
    | none => rw [handleUnsubscribe_noconn hg]; exact hInv
    | some conn =>
      rw [handleUnsubscribe_main hg]
      exact regInv_unsubscribe_main hInv hg

theorem inv_disconnect {st : ServerState} {cid : Nat} (hInv : Inv st) :
    Inv (handleDisconnect st cid) := by
  cases hg : mget st.connections cid with
  | none =>
    rw [handleDisconnect_noconn hg]
    exact regInv_disconnect_noconn hInv hg
  | some conn =>
    rw [handleDisconnect_main hg]
    exact regInv_disconnect_main hInv hg

theorem inv_init : Inv initState := by
  refine ⟨?_, ?_, ?_, ?_, ?_, ?_, ?_⟩ <;> simp [initState, mget, idxGet]

theorem reachable_inv {st : ServerState} (h : Reachable st) : Inv st := by
  induction h with
  | init => exact inv_init
  | connect _ hfresh ih => exact inv_connect ih hfresh
  | subscribe _ ih => exact inv_subscribe ih
  | unsubscribe _ ih => exact inv_unsubscribe ih
  | disconnect _ ih => exact inv_disconnect ih

theorem mem_deliverTo {st : ServerState} {clients : List Nat} {m m' : Msg} {cid : Nat} :
    (cid, m) ∈ deliverTo st clients m' ↔
      cid ∈ clients ∧ m = m' ∧ ConnectedIn st cid := by
  unfold deliverTo
  rw [List.mem_filterMap]
  constructor
  · rintro ⟨a, ha, hf⟩
    cases hg : mget st.connections a with
    | none => rw [hg] at hf; cases hf
    | some conn =>
      rw [hg] at hf
      have hf' : (if conn.connected = true then some (a, m') else none) = some (cid, m) := hf
      by_cases hc : conn.connected = true
      · rw [if_pos hc] at hf'
        have hp : (a, m') = (cid, m) := Option.some_injective _ hf'
        have h1 : a = cid := congrArg Prod.fst hp
        have h2 : m' = m := congrArg Prod.snd hp
        subst h1
        exact ⟨ha, h2.symm, conn, hg, hc⟩
      · rw [if_neg hc] at hf'
        cases hf'
  · rintro ⟨hcl, hm, hcc⟩
    obtain ⟨conn, hg, hc⟩ := hcc
    subst hm
    refine ⟨cid, hcl, ?_⟩
    rw [hg]
    show (if conn.connected = true then some (cid, m) else none) = some (cid, m)
    rw [if_pos hc]

theorem mem_fanOutUpdates {st : ServerState} {cid : Nat} {s : String} {q : StockQuote} :
    ∀ ups : List StockQuote,
      ((cid, Msg.stockUpdate s q) ∈ fanOutUpdates st ups ↔
        q ∈ ups ∧ s = q.symbol ∧ cid ∈ idxGet st.subscriptions q.symbol ∧
          ConnectedIn st cid) := by
  intro ups
  induction ups with
  | nil => simp [fanOutUpdates]
  | cons q' rest ih =>
    rw [fanOutUpdates, List.mem_append, ih, mem_deliverTo]
    constructor
    · rintro (⟨hcl, hm, hconn⟩ | ⟨hq, hs, hcl, hconn⟩)
      · injection hm with h1 h2
        subst h2
        exact ⟨List.mem_cons_self _ _, h1, hcl, hconn⟩
      · exact ⟨List.mem_cons_of_mem _ hq, hs, hcl, hconn⟩
    · rintro ⟨hq, hs, hcl, hconn⟩
      rcases List.mem_cons.mp hq with he | he
      · subst he
        exact Or.inl ⟨hcl, by rw [hs], hconn⟩
      · exact Or.inr ⟨he, hs, hcl, hconn⟩

theorem not_stockError_mem_fanOutUpdates {st : ServerState} {cid : Nat} {s e : String} :
    ∀ ups : List StockQuote, (cid, Msg.stockError s e) ∉ fanOutUpdates st ups := by
  intro ups
  induction ups with
  | nil => simp [fanOutUpdates]
  | cons q' rest ih =>
    rw [fanOutUpdates]
    intro h
    rcases List.mem_append.mp h with h | h
    · rcases mem_deliverTo.mp h with ⟨_, hm, _⟩
      cases hm
    · exact ih h

theorem mem_fanOutErrors {st : ServerState} {cid : Nat} {s e : String} :
    ∀ errs : List (String × String),
      ((cid, Msg.stockError s e) ∈ fanOutErrors st errs ↔
        (s, e) ∈ errs ∧ cid ∈ idxGet st.subscriptions s ∧ ConnectedIn st cid) := by
  intro errs
  induction errs with
  | nil => simp [fanOutErrors]
  | cons p rest ih =>
    rw [fanOutErrors, List.mem_append, ih, mem_deliverTo]
    constructor
    · rintro (⟨hcl, hm, hconn⟩ | ⟨hp, hcl, hconn⟩)
      · injection hm with h1 h2
        have hpe : (s, e) = p := by rw [h1, h2]
        refine ⟨List.mem_cons.mpr (Or.inl hpe), ?_, hconn⟩
        rw [h1]
        exact hcl
      · exact ⟨List.mem_cons_of_mem _ hp, hcl, hconn⟩
    · rintro ⟨hp, hcl, hconn⟩
      rcases List.mem_cons.mp hp with he | he
      · have h1 : s = p.1 := by rw [← he]
        have h2 : e = p.2 := by rw [← he]
        refine Or.inl ⟨?_, by rw [h1, h2], hconn⟩
        rw [← h1]
        exact hcl
      · exact Or.inr ⟨he, hcl, hconn⟩

theorem not_stockUpdate_mem_fanOutErrors {st : ServerState} {cid : Nat} {s : String}
    {q : StockQuote} :
    ∀ errs : List (String × String), (cid, Msg.stockUpdate s q) ∉ fanOutErrors st errs := by
  intro errs
  induction errs with
  | nil => simp [fanOutErrors]
  | cons p rest ih =>
    rw [fanOutErrors]
    intro h
    rcases List.mem_append.mp h with h | h
    · rcases mem_deliverTo.mp h with ⟨_, hm, _⟩
      cases hm
    · exact ih h

theorem fanOut_eq (st : ServerState) (ups : List StockQuote)
    (errs : List (String × String)) :
    fanOut st ups errs = fanOutUpdates st ups ++ fanOutErrors st errs := by
  unfold fanOut
  cases errs with
  | nil => simp [fanOutErrors]
  | cons e rest => rw [if_pos (by simp)]

theorem runBatches_cons
    (fetch : List String → Except String (List StockQuote × List (String × String)))
    (b : List String) (rest : List (List String)) :
    runBatches fetch (b :: rest) =
      ((match fetch b with
        | Except.ok res => res
        | Except.error e => ([], b.map (fun s => (s, e)))).1 ++ (runBatches fetch rest).1,
       (match fetch b with
        | Except.ok res => res
        | Except.error e => ([], b.map (fun s => (s, e)))).2 ++ (runBatches fetch rest).2) := rfl

theorem runBatches_failed_mem
    (fetch : List String → Except String (List StockQuote × List (String × String))) :
    ∀ (bs : List (List String)) (b : List String), b ∈ bs →
      ∀ e, fetch b = Except.error e →
      ∀ s ∈ b, (s, e) ∈ (runBatches fetch bs).2 := by
  intro bs
  induction bs with
  | nil =>
    intro b hb
    exact absurd hb (List.not_mem_nil b)
  | cons b0 rest ih =>
    intro b hb e he s hs
    rw [runBatches_cons]
    rcases List.mem_cons.mp hb with heq | hmem
    · subst heq
      rw [he]
      refine List.mem_append.mpr (Or.inl ?_)
      show (s, e) ∈ b.map (fun s' => (s', e))
      exact List.mem_map.mpr ⟨s, hs, rfl⟩
    · exact List.mem_append.mpr (Or.inr (ih b hmem e he s hs))

theorem runBatches_ok_mem
    (fetch : List String → Except String (List StockQuote × List (String × String))) :
    ∀ (bs : List (List String)) (b : List String), b ∈ bs →
      ∀ stocks errsb, fetch b = Except.ok (stocks, errsb) →
      (∀ q ∈ stocks, q ∈ (runBatches fetch bs).1) ∧
      (∀ p ∈ errsb, p ∈ (runBatches fetch bs).2) := by
  intro bs
  induction bs with
  | nil =>
    intro b hb
    exact absurd hb (List.not_mem_nil b)
  | cons b0 rest ih =>
    intro b hb stocks errsb he
    rcases List.mem_cons.mp hb with heq | hmem
    · subst heq
      constructor
      · intro q hq
        rw [runBatches_cons, he]
        refine List.mem_append.mpr (Or.inl ?_)
        show q ∈ stocks
        exact hq
      · intro p hp
        rw [runBatches_cons, he]
        refine List.mem_append.mpr (Or.inl ?_)
        show p ∈ errsb
        exact hp
    · have h := ih b hmem stocks errsb he
      constructor
      · intro q hq
        rw [runBatches_cons]
        exact List.mem_append.mpr (Or.inr (h.1 q hq))
      · intro p hp
        rw [runBatches_cons]
        exact List.mem_append.mpr (Or.inr (h.2 p hp))

theorem chunksGo_spec {α : Type} :
    ∀ (fuel : Nat) (l : List α), ∀ b ∈ chunksGo fuel l, b ≠ [] ∧ b.length ≤ batchSize := by
  intro fuel
  induction fuel with
  | zero =>
    intro l b hb
    cases l with
    | nil => exact absurd hb (List.not_mem_nil b)
    | cons x rest => exact absurd hb (List.not_mem_nil b)
  | succ fuel ih =>
    intro l b hb
    cases l with
    | nil => exact absurd hb (List.not_mem_nil b)
    | cons x rest =>
      rcases List.mem_cons.mp hb with he | he
      · subst he
        constructor
        · simp [batchSize]
        · exact List.length_take_le _ _
      · exact ih _ b he

theorem chunks_spec {α : Type} (l : List α) :
    ∀ b ∈ chunks l, b ≠ [] ∧ b.length ≤ batchSize :=
  chunksGo_spec l.length l

/-- Claim C1: for every sequence of connection, subscribe, unsubscribe and
disconnect operations starting from the empty registry, the resulting state
satisfies both halves of the registry consistency invariant: a symbol is a
key of the symbol-to-connections index exactly when at least one
connection's subscription set contains it (empty sets are pruned), and for
every connection and symbol, the symbol is in the connection's subscription
set exactly when the connection's identifier is in the index entry for the
symbol. -/
theorem registry_consistent_of_reachable (st : ServerState) (h : Reachable st) :
    RegistryConsistent st := by
  have hInv : RegInv st.connections st.subscriptions st.updateInterval := reachable_inv h
  constructor
  · intro s
    constructor
    · intro hsome
      cases hm : mget st.subscriptions s with
      | none =>
        rw [hm] at hsome
        simp at hsome
      | some l =>
        have hlne : l ≠ [] := hInv.idxNe s l hm
        cases l with
        | nil => exact absurd rfl hlne
        | cons cid0 rest =>
          have hmem : cid0 ∈ idxGet st.subscriptions s := by
            rw [idxGet, hm]
            exact List.mem_cons_self _ _
          obtain ⟨conn, hg, hs⟩ := hInv.bwd s cid0 hmem
          exact ⟨cid0, conn, hg, hs⟩
    · rintro ⟨cid0, conn, hg, hs⟩
      have hmem : cid0 ∈ idxGet st.subscriptions s := hInv.fwd cid0 conn hg s hs
      cases hm : mget st.subscriptions s with
      | none =>
        rw [idxGet, hm] at hmem
        exact absurd hmem (List.not_mem_nil _)
      | some l => rfl
  · intro cid0 conn s hg
    constructor
    · intro hs
      exact hInv.fwd cid0 conn hg s hs
    · intro hmem
      obtain ⟨conn', hg', hs⟩ := hInv.bwd s cid0 hmem
      rw [hg] at hg'
      injection hg' with he
      subst he
      exact hs

/-- Claim C1 witness: the consistency invariant at the concrete reachable
state where connection 0 subscribed to `["aapl"]`. -/
theorem registry_consistent_example : RegistryConsistent stateA :=
  registry_consistent_of_reachable stateA
    (Reachable.subscribe (Reachable.connect Reachable.init rfl))

/-- Claim C3: in every reachable state the update timer is live exactly
when the subscription index is non-empty (so the first subscribe that fills
the index starts it, the unsubscribe or disconnect that empties the index
stops it, and no other modelled operation touches it), and a refresh cycle
run against an empty index does nothing. -/
theorem scheduler_active_iff_nonempty (st : ServerState)
    (api : List String → Except String (String → Option StockQuote))
    (h : Reachable st) :
    (st.updateInterval = true ↔ st.subscriptions ≠ []) ∧
      (st.subscriptions = [] → broadcastStockUpdates st api = []) := by
  refine ⟨(reachable_inv h).sched, ?_⟩
  intro hnil
  unfold broadcastStockUpdates
  rw [if_pos (show st.subscriptions.length = 0 by rw [hnil]; rfl)]

/-- Claim C3 witness: the scheduler biconditional at the concrete reachable
state where connection 0 subscribed to `["aapl"]`. -/
theorem scheduler_active_iff_nonempty_example :
    (stateA.updateInterval = true ↔ stateA.subscriptions ≠ []) ∧
      (stateA.subscriptions = [] → broadcastStockUpdates stateA apiNone = []) :=
  scheduler_active_iff_nonempty stateA apiNone
    (Reachable.subscribe (Reachable.connect Reachable.init rfl))

/-- Claim C2 counterexample: with 48 existing subscriptions and 5 new
symbols requested the handler does not accept 2 and reject 3 — it rejects
the whole request with a `subscription_error` and the subscription set
stays at 48, never reaching 50. -/
theorem subscribe_cap_no_partial_acceptance :
    handleSubscribe state48 0 (some ["NA", "NB", "NC", "ND", "NE"]) =
      (state48, [Msg.subscriptionError "Maximum 50 subscriptions allowed per client"]) ∧
    (mget state48.connections 0).map (fun c => c.subs.length) = some 48 ∧
    (mget (handleSubscribe state48 0 (some ["NA", "NB", "NC", "ND", "NE"])).1.connections
        0).map (fun c => c.subs.length) ≠ some 50 := by
  decide

/-- Claim C2 (amended): when the connection's current subscription count
plus the raw length of the requested symbol list exceeds the cap of 50, the
subscribe handler rejects the entire request with a single
`subscription_error` (no symbol is accepted) and leaves the state —
subscription set and index included — unchanged. -/
theorem subscribe_cap_rejects_whole_request (st : ServerState) (cid : Nat) (conn : Conn)
    (symbols : List String) (hg : mget st.connections cid = some conn)
    (hlim : MAX_SUBSCRIPTIONS_PER_CLIENT < conn.subs.length + symbols.length) :
    handleSubscribe st cid (some symbols) =
      (st, [Msg.subscriptionError "Maximum 50 subscriptions allowed per client"]) :=
  handleSubscribe_limit hg hlim

/-- Claim C2 witness: the whole-request rejection at the concrete state
with 48 existing subscriptions and 5 requested symbols. -/
theorem subscribe_cap_rejects_whole_request_example :
    handleSubscribe state48 0 (some ["NA", "NB", "NC", "ND", "NE"]) =
      (state48, [Msg.subscriptionError "Maximum 50 subscriptions allowed per client"]) :=
  subscribe_cap_rejects_whole_request state48 0 ⟨symsN 48, none, true⟩
    ["NA", "NB", "NC", "ND", "NE"] (by decide) (by decide)

/-- Claim C9: the subscribe limit check compares the connection's current
subscription count plus the raw request length against the cap of 50 before
any canonicalization or deduplication, so a request whose symbols are all
already subscribed is still rejected with `subscription_error`, and such a
rejection changes neither the connection's set nor the index (the state is
returned untouched). -/
theorem limit_check_counts_raw_request (st : ServerState) (cid : Nat) (conn : Conn)
    (symbols : List String) (hg : mget st.connections cid = some conn)
    (hall : ∀ s ∈ symbols, cleanSym s ∈ conn.subs)
    (hlim : MAX_SUBSCRIPTIONS_PER_CLIENT < conn.subs.length + symbols.length) :
    handleSubscribe st cid (some symbols) =
      (st, [Msg.subscriptionError "Maximum 50 subscriptions allowed per client"]) :=
  handleSubscribe_limit hg hlim

/-- Claim C9 witness: at the cap of 50, a request for two symbols both of
which are already subscribed (one in a lowercase-with-whitespace variant)
is rejected and the state is unchanged. -/
theorem limit_check_counts_raw_request_example :
    handleSubscribe state50 0 (some ["S0", "s1 "]) =
      (state50, [Msg.subscriptionError "Maximum 50 subscriptions allowed per client"]) :=
  limit_check_counts_raw_request state50 0 ⟨symsN 50, none, true⟩ ["S0", "s1 "]
    (by decide) (by decide) (by decide)

/-- Claim C7 counterexample: a connection at the cap of 50 that subscribes
again to `S0`, a symbol it already holds, is not acknowledged as accepted —
the request is rejected with `subscription_error`, because the limit check
counts the raw request length. -/
theorem resubscribe_at_cap_rejected :
    mget state50.connections 0 = some ⟨symsN 50, none, true⟩ ∧
    "S0" ∈ symsN 50 ∧
    handleSubscribe state50 0 (some ["S0"]) =
      (state50, [Msg.subscriptionError "Maximum 50 subscriptions allowed per client"]) := by
  decide

/-- Claim C7 (amended): in any reachable state, provided the limit check
passes (current count plus one within the cap), re-subscribing a symbol the
connection already holds — in any case or whitespace variant that
canonicalizes to it — is idempotent: it is acknowledged as accepted with no
error and the whole state (subscription set, index, timer) is unchanged. -/
theorem resubscribe_idempotent_under_cap (st : ServerState) (cid : Nat) (conn : Conn)
    (sym : String) (hre : Reachable st) (hg : mget st.connections cid = some conn)
    (hmem : cleanSym sym ∈ conn.subs)
    (hlim : conn.subs.length + 1 ≤ MAX_SUBSCRIPTIONS_PER_CLIENT) :
    handleSubscribe st cid (some [sym]) = (st, [Msg.subscribed [cleanSym sym] []]) := by
  have hInv : RegInv st.connections st.subscriptions st.updateInterval := reachable_inv hre
  have hclean : ¬cleanSym sym = "" := by
    intro he
    rw [he] at hmem
    exact hInv.connNoEmptySym cid conn hg hmem
  have hnlim : ¬MAX_SUBSCRIPTIONS_PER_CLIENT < conn.subs.length + [sym].length := by
    simp only [List.length_singleton]
    omega
  have hsub : setAdd conn.subs (cleanSym sym) = conn.subs := setAdd_self hmem
  have hcmem : cid ∈ idxGet st.subscriptions (cleanSym sym) :=
    hInv.fwd cid conn hg (cleanSym sym) hmem
  obtain ⟨l, hml, hcl⟩ := mem_idxGet_iff.mp hcmem
  have hidxget : idxGet st.subscriptions (cleanSym sym) = l := by
    rw [idxGet, hml]
    rfl
  have hidx : indexAdd st.subscriptions (cleanSym sym) cid = st.subscriptions := by
    unfold indexAdd
    rw [hidxget, setAdd_self hcl, mset_self hml]
  have hidxne : st.subscriptions ≠ [] := by
    intro hnil
    rw [hnil] at hml
    simp [mget] at hml
  have hflag : st.updateInterval = true := hInv.sched.mpr hidxne
  have hcond : ¬(0 < st.subscriptions.length ∧ st.updateInterval = false) := by
    rintro ⟨_, hff⟩
    rw [hflag] at hff
    cases hff
  have hloop : subscribeLoop cid [sym] ⟨conn.subs, st.subscriptions, [], []⟩ =
      ⟨setAdd conn.subs (cleanSym sym), indexAdd st.subscriptions (cleanSym sym) cid,
        [cleanSym sym], []⟩ := by
    simp [subscribeLoop, hclean]
  rw [handleSubscribe_main hg hnlim, hloop]
  show (ServerState.mk
        (mset st.connections cid { conn with subs := setAdd conn.subs (cleanSym sym) })
        (indexAdd st.subscriptions (cleanSym sym) cid)
        (if 0 < (indexAdd st.subscriptions (cleanSym sym) cid).length ∧
            st.updateInterval = false then true
          else st.updateInterval),
      [Msg.subscribed [cleanSym sym] []]) = (st, [Msg.subscribed [cleanSym sym] []])
  rw [hsub, hidx, if_neg hcond,
    show ({ conn with subs := conn.subs } : Conn) = conn from rfl, mset_self hg]

/-- Claim C7 witness: in the reachable state where connection 0 holds
`AAPL`, re-subscribing via the variant `"  aapl "` is accepted and the
state is unchanged. -/
theorem resubscribe_idempotent_under_cap_example :
    handleSubscribe stateA 0 (some ["  aapl "]) =
      (stateA, [Msg.subscribed [cleanSym "  aapl "] []]) :=
  resubscribe_idempotent_under_cap stateA 0 ⟨["AAPL"], none, true⟩ "  aapl "
    (Reachable.subscribe (Reachable.connect Reachable.init rfl))
    (by decide) (by decide) (by decide)

/-- Claim C4: in one refresh cycle's fan-out, a connection receives the
symbol-scoped `stock_update` for a successful quote exactly when it is
currently listed in the index entry for that quote's symbol and its socket
is still connected, and it receives the symbol-scoped `stock_error` for a
per-symbol failure under the same condition; a connection that disconnected
mid-cycle (record gone or socket no longer connected) is silently skipped,
and a connection subscribed to both a failing and a succeeding symbol
receives both messages independently, as the two characterizations compose
freely. -/
theorem fanout_exact_delivery (st : ServerState) (ups : List StockQuote)
    (errs : List (String × String)) (cid : Nat) (s : String) (q : StockQuote)
    (e : String) :
    ((cid, Msg.stockUpdate s q) ∈ fanOut st ups errs ↔
      q ∈ ups ∧ s = q.symbol ∧ cid ∈ idxGet st.subscriptions q.symbol ∧
        ConnectedIn st cid) ∧
    ((cid, Msg.stockError s e) ∈ fanOut st ups errs ↔
      (s, e) ∈ errs ∧ cid ∈ idxGet st.subscriptions s ∧ ConnectedIn st cid) := by
  rw [fanOut_eq]
  constructor
  · constructor
    · intro h
      rcases List.mem_append.mp h with h | h
      · exact (mem_fanOutUpdates ups).mp h
      · exact absurd h (not_stockUpdate_mem_fanOutErrors errs)
    · intro h
      exact List.mem_append.mpr (Or.inl ((mem_fanOutUpdates ups).mpr h))
  · constructor
    · intro h
      rcases List.mem_append.mp h with h | h
      · exact absurd h (not_stockError_mem_fanOutUpdates ups)
      · exact (mem_fanOutErrors errs).mp h
    · intro h
      exact List.mem_append.mpr (Or.inr ((mem_fanOutErrors errs).mpr h))

/-- Claim C5: with a non-empty subscription index, one refresh cycle
partitions the symbol list into batches of size at most `batchSize` (each
batch non-empty, one `getMultipleStockPrices` call per batch by
construction of `runBatches`); a batch whose upstream call throws
contributes a failure entry carrying that error for every one of its
symbols, while every other batch's stocks and per-symbol errors still reach
the cycle's accumulated results, which are then handed to the fan-out — a
failed batch never aborts the cycle. -/
theorem refresh_cycle_batch_isolation (st : ServerState)
    (api : List String → Except String (String → Option StockQuote))
    (hne : st.subscriptions ≠ []) :
    (∀ b ∈ chunks (cycleSymbols st), b ≠ [] ∧ b.length ≤ batchSize) ∧
    (∀ b ∈ chunks (cycleSymbols st), ∀ e,
      getMultipleStockPrices api b = Except.error e →
      ∀ s ∈ b, (s, e) ∈ (refreshCycle st api).2) ∧
    (∀ b ∈ chunks (cycleSymbols st), ∀ stocks errsb,
      getMultipleStockPrices api b = Except.ok (stocks, errsb) →
      (∀ q ∈ stocks, q ∈ (refreshCycle st api).1) ∧
      (∀ p ∈ errsb, p ∈ (refreshCycle st api).2)) ∧
    broadcastStockUpdates st api =
      fanOut st (refreshCycle st api).1 (refreshCycle st api).2 := by
  refine ⟨chunks_spec _, ?_, ?_, ?_⟩
  · intro b hb e he s hs
    exact runBatches_failed_mem _ _ b hb e he s hs
  · intro b hb stocks errsb he
    exact runBatches_ok_mem _ _ b hb stocks errsb he
  · unfold broadcastStockUpdates
    rw [if_neg (fun hz => hne (List.length_eq_zero.mp hz))]

/-- Claim C5 witness: in the concrete state with 12 subscribed symbols and
an upstream that throws `boom` on every batch, the second batch's symbol
`S11` appears in the cycle's failure list with the wrapped error. -/
theorem refresh_cycle_batch_isolation_example :
    ("S11", "Failed to fetch multiple stock prices: boom") ∈
      (refreshCycle state12 apiBoom).2 :=
  (refresh_cycle_batch_isolation state12 apiBoom (by decide)).2.1
    ["S10", "S11"] (by decide) "Failed to fetch multiple stock prices: boom" rfl
    "S11" (by decide)

/-- Claim C6: the `subscribe_watchlist` handler never forwards watchlist
symbols to the subscribe path and never sends `watchlist_subscribed` with
the symbols.  At runtime the lookup `Watchlist.findDefaultWatchlist` throws
(the model defines `findDefaultByUserId`, and the schema field is `stocks`,
not the `items` the handler reads), so the client gets a
`subscription_error`; and even with a resolved non-empty watchlist, the
handler merely emits a message named `subscribe` to the client
(`socket.emit`) — the registry state is unchanged on both paths. -/
theorem subscribe_watchlist_never_subscribes :
    handleSubscribeWatchlist stateA (some "u1")
        (WatchlistLookup.throws "Watchlist.findDefaultWatchlist is not a function") =
      (stateA, [Msg.subscriptionError "Failed to subscribe to watchlist"]) ∧
    handleSubscribeWatchlist stateA (some "u1")
        (WatchlistLookup.found (some ⟨[⟨"AAPL"⟩]⟩)) =
      (stateA, [Msg.subscribeMessage ["AAPL"]]) := by
  constructor
  · rfl
  · rfl

/-- Claim C10: `forceStockUpdate` hands its whole symbol list to a single
`getMultipleStockPrices` call, so with more than 100 symbols it rethrows
the validation error and broadcasts nothing, and with an empty list it
rethrows the empty-input error; the scheduled refresh cycle, in contrast,
slices the subscribed symbols into non-empty batches of at most 10, each
far below the 100-symbol validation bound. -/
theorem force_update_no_batching (st : ServerState)
    (api : List String → Except String (String → Option StockQuote))
    (symbols : List String) (hover : 100 < symbols.length) :
    forceStockUpdate st api symbols =
      Except.error "Maximum 100 symbols allowed per request" ∧
    forceStockUpdate st api [] = Except.error "Valid symbols array is required" ∧
    (∀ b ∈ chunks (cycleSymbols st), b ≠ [] ∧ b.length ≤ 100) := by
  refine ⟨?_, rfl, ?_⟩
  · have h0 : ¬symbols.length = 0 := by omega
    unfold forceStockUpdate getMultipleStockPrices
    rw [if_neg h0, if_pos hover]
  · intro b hb
    have h := chunks_spec (cycleSymbols st) b hb
    exact ⟨h.1, le_trans h.2 (by decide)⟩

/-- Claim C10 witness: a forced update for 101 symbols throws the
validation error (and the empty-list and batching facts at the same
instantiation). -/
theorem force_update_no_batching_example :
    forceStockUpdate initState apiNone (symsN 101) =
      Except.error "Maximum 100 symbols allowed per request" ∧
    forceStockUpdate initState apiNone [] =
      Except.error "Valid symbols array is required" ∧
    (∀ b ∈ chunks (cycleSymbols initState), b ≠ [] ∧ b.length ≤ 100) :=
  force_update_no_batching initState apiNone (symsN 101) (by decide)

end FinanceApp
